import Mathlib

/-!
# tmux-mem-cpu-load: the status line of `src/main.cc`

A shallow embedding of `cpu_string`, `mem_string`, `load_string` and `main`.

* A finite C++ `float` / `double` value is a dyadic number `mant * 2 ^ exp`
  (every finite IEEE-754 value has this form).  Conversions between the two
  widths and the arithmetic of the source round to nearest, ties to even;
  results can also be the negative zero, an infinity or a NaN.
* Undefined behaviour of the source is the result `none`.
* `std::ostream << x` is modelled by the text the stream produces: decimal
  digits for integers, `printf`-style `%.Nf` once `std::ios::fixed` is set and
  `%g` with six significant digits for a stream left in its default state.
* Collaborators that live outside `main.cc` (the memory reader, the CPU
  sampler, `getloadavg`, `convert_unit`, the version string and the option
  scanner `getopt_long` with `atoi`) are parameters.
* Values that the source computes and never reads (`percent` in `cpu_string`,
  `load_percent` in `load_string`) are left out.
-/

namespace TmuxMemCpuLoad

/-! ## Floating-point values -/

/-- The finite floating-point number `mant * 2 ^ exp`. -/
structure Dyadic where
  mant : Int
  exp : Int
deriving DecidableEq, Repr

namespace Dyadic

/-- The rational number a dyadic stands for (used in statements only). -/
def toRat (x : Dyadic) : ℚ := (x.mant : ℚ) * (2 : ℚ) ^ x.exp

/-- The integer `x * 2 ^ (-k)`, meaningful when `k ≤ x.exp`. -/
def scaled (x : Dyadic) (k : Int) : Int := x.mant * 2 ^ (x.exp - k).toNat

/-- Comparison `a < b` of the C++ values. -/
def lt (a b : Dyadic) : Bool :=
  decide (a.scaled (min a.exp b.exp) < b.scaled (min a.exp b.exp))

/-- Comparison `a >= b` of the C++ values. -/
def ge (a b : Dyadic) : Bool := !(lt a b)

/-- An integer as a floating-point value. -/
def ofInt (n : Int) : Dyadic := ⟨n, 0⟩

/-- Truncation toward zero, the integer part kept by a C++ conversion to an
integer type. -/
def trunc (x : Dyadic) : Int :=
  if 0 ≤ x.exp then x.mant * 2 ^ x.exp.toNat else Int.tdiv x.mant (2 ^ (-x.exp).toNat)

/-- Numerator of `|x|` as a fraction of naturals. -/
def num (x : Dyadic) : Nat := x.mant.natAbs * 2 ^ x.exp.toNat

/-- Denominator of `|x|` as a fraction of naturals, a power of two. -/
def den (x : Dyadic) : Nat := 2 ^ (-x.exp).toNat

/-- Sign test `x < 0`. -/
def negative (x : Dyadic) : Bool := decide (x.mant < 0)

/-- The exact product of two values. -/
def mul (a b : Dyadic) : Dyadic := ⟨a.mant * b.mant, a.exp + b.exp⟩

end Dyadic

/-- The conversion `static_cast< unsigned int >( x )` on a 32-bit `unsigned int`:
the fractional part is discarded.  C++ leaves the result undefined when the
truncated value is not representable; the model reduces it modulo `2 ^ 32`. -/
def to_unsigned (x : Dyadic) : Nat := (x.trunc % 2 ^ 32).toNat

/-! ## Rounding and arithmetic -/

/-- Nearest integer to `num / den`, ties to the even neighbour (`den > 0`). -/
def round_half_even (num den : Nat) : Nat :=
  if 2 * (num % den) < den then num / den
  else if den < 2 * (num % den) then num / den + 1
  else if (num / den) % 2 = 0 then num / den
  else num / den + 1

/-- A floating-point result of an arithmetic operation: a finite number (a
zero mantissa is the positive zero), the negative zero, an infinity, or the
NaN of an invalid operation. -/
inductive FloatVal where
  | finite (x : Dyadic)
  | negzero
  | inf (negative : Bool)
  | nan
deriving DecidableEq, Repr

/-- The zero of the given sign. -/
def signed_zero (negative : Bool) : FloatVal :=
  if negative then .negzero else .finite ⟨0, 0⟩

/-- An IEEE-754 binary format: significand bits and exponent range. -/
structure Format where
  prec : Nat
  emin : Int
  emax : Int

/-- The C++ `float` on the supported platforms. -/
def binary32 : Format := ⟨24, -126, 127⟩

/-- The C++ `double` on the supported platforms. -/
def binary64 : Format := ⟨53, -1022, 1023⟩

/-- Number of binary digits of `n` (`0` for `n = 0`). -/
def bit_length (n : Nat) : Nat := if n = 0 then 0 else (Nat.toDigits 2 n).length

/-- The test `2 ^ e ≤ n / d`. -/
def pow2_le (e : Int) (n d : Nat) : Bool :=
  if 0 ≤ e then decide (d * 2 ^ e.toNat ≤ n) else decide (d ≤ n * 2 ^ (-e).toNat)

/-- The integer `⌊log2 (n / d)⌋` for positive `n` and `d`. -/
def floor_log2 (n d : Nat) : Int :=
  let e : Int := (bit_length n : Int) - (bit_length d : Int)
  if pow2_le e n d then e else e - 1

/-- Nearest integer to `(n / d) / 2 ^ q`, ties to even. -/
def round_at (q : Int) (n d : Nat) : Nat :=
  if 0 ≤ q then round_half_even n (d * 2 ^ q.toNat) else round_half_even (n * 2 ^ (-q).toNat) d

/-- Round the fraction `± n / d` (`d > 0`) to the nearest value of format `f`,
ties to even, with gradual underflow and overflow to infinity: `q` is the
exponent of the last place, `m` the rounded significand, and the result
overflows when `m * 2 ^ q` reaches `2 ^ (emax + 1)`.  A zero result keeps the
sign. -/
def round_fraction (f : Format) (negative : Bool) (n d : Nat) : FloatVal :=
  if n = 0 then signed_zero negative
  else
    let q : Int := max (floor_log2 n d) f.emin - ((f.prec : Int) - 1)
    let m := round_at q n d
    if m = 0 then signed_zero negative
    else if f.emax + 1 < (bit_length m : Int) + q then .inf negative
    else .finite ⟨if negative then -(m : Int) else (m : Int), q⟩

namespace FloatVal

/-- Sign test (false for NaN). -/
def negative : FloatVal → Bool
  | finite x => x.negative
  | negzero => true
  | inf s => s
  | nan => false

/-- Test for a zero of either sign. -/
def isZero : FloatVal → Bool
  | finite x => decide (x.mant = 0)
  | negzero => true
  | _ => false

/-- Numerator of the magnitude of a finite value (`0` otherwise). -/
def num : FloatVal → Nat
  | finite x => x.num
  | _ => 0

/-- Denominator of the magnitude of a finite value (`1` otherwise). -/
def den : FloatVal → Nat
  | finite x => x.den
  | _ => 1

/-- Conversion of a value to format `f` (a cast or an assignment). -/
def round (f : Format) : FloatVal → FloatVal
  | finite x => round_fraction f x.negative x.num x.den
  | v => v

/-- The product `a * b` computed in format `f`: NaN for zero times infinity,
otherwise the rounded product with the sign of the exact one. -/
def mul (f : Format) : FloatVal → FloatVal → FloatVal
  | nan, _ => nan
  | _, nan => nan
  | inf s, b => if b.isZero then nan else inf (s != b.negative)
  | a, inf s => if a.isZero then nan else inf (a.negative != s)
  | a, b => round_fraction f (a.negative != b.negative) (a.num * b.num) (a.den * b.den)

/-- The quotient `a / b` computed in format `f`: NaN for zero by zero and
infinity by infinity, an infinity for a division of a non-zero value by
zero, otherwise the rounded quotient with the sign of the exact one. -/
def div (f : Format) : FloatVal → FloatVal → FloatVal
  | nan, _ => nan
  | _, nan => nan
  | inf _, inf _ => nan
  | inf s, b => inf (s != b.negative)
  | a, inf s => signed_zero (a.negative != s)
  | a, b =>
    if b.isZero then (if a.isZero then nan else inf (a.negative != b.negative))
    else round_fraction f (a.negative != b.negative) (a.num * b.den) (a.den * b.num)

/-- The sum `a + b` computed in format `f`; an exact sum of zero is the
positive zero unless both terms are the negative zero. -/
def add (f : Format) : FloatVal → FloatVal → FloatVal
  | nan, _ => nan
  | _, nan => nan
  | inf s, inf t => if s = t then inf s else nan
  | inf s, _ => inf s
  | _, inf t => inf t
  | negzero, negzero => negzero
  | negzero, finite y => round f (finite y)
  | finite x, negzero => round f (finite x)
  | finite x, finite y =>
    round f (finite ⟨x.scaled (min x.exp y.exp) + y.scaled (min x.exp y.exp), min x.exp y.exp⟩)

/-- The function `floorf`: the largest integral value not above the argument. -/
def floor : FloatVal → FloatVal
  | finite x => finite ⟨if 0 ≤ x.exp then x.mant * 2 ^ x.exp.toNat else x.mant / 2 ^ (-x.exp).toNat, 0⟩
  | v => v

end FloatVal

/-! ## Stream output -/

/-- Nearest integer to `|x| * 10 ^ p`, ties to even: the digits `printf` keeps
when it prints `x` with `p` decimals. -/
def scaled_round (p : Nat) (x : Dyadic) : Nat :=
  round_half_even (x.num * 10 ^ p) x.den

/-- Left padding with `'0'` up to width `w`. -/
def pad_zeros (w : Nat) (s : String) : String :=
  String.mk (List.replicate (w - s.length) '0') ++ s

/-- Digits of the scaled integer `n = round (|x| * 10 ^ p)` in fixed notation:
integer part, and a decimal point with exactly `p` digits when `p > 0`. -/
def fixed_digits (p n : Nat) : String :=
  Nat.repr (n / 10 ^ p) ++ (if p = 0 then "" else "." ++ pad_zeros p (Nat.repr (n % 10 ^ p)))

/-- Text of `oss << x` for a floating-point `x` on a stream with
`std::ios::fixed` set and `precision( p )`, i.e. `printf( "%.pf", x )`. -/
def fmt_fixed (p : Nat) (x : Dyadic) : String :=
  (if x.negative then "-" else "") ++ fixed_digits p (scaled_round p x)

/-- Number of decimal digits of `n`. -/
def decimal_length (n : Nat) : Nat := (Nat.toDigits 10 n).length

/-- The integer `⌊log10 (n / d)⌋` for positive `n` and `d`. -/
def floor_log10 (n d : Nat) : Int :=
  if d ≤ n then (decimal_length (n / d) : Int) - 1
  else if d ≤ n * 10 ^ (decimal_length (d / n) - 1) then -((decimal_length (d / n) : Int) - 1)
  else -(decimal_length (d / n) : Int)

/-- Nearest integer to `(n / d) / 10 ^ t`, ties to even. -/
def round_at10 (t : Int) (n d : Nat) : Nat :=
  if 0 ≤ t then round_half_even n (d * 10 ^ t.toNat) else round_half_even (n * 10 ^ (-t).toNat) d

/-- The `%g` clean-up: trailing zeros of the fraction are removed, and the
decimal point too when no fraction remains. -/
def strip_zeros (s : String) : String :=
  if s.data.contains '.' then
    String.mk
      (match s.data.reverse.dropWhile (fun c => c == '0') with
        | '.' :: r => r
        | r => r).reverse
  else s

/-- Exponent field of the scientific notation: a sign and at least two digits. -/
def exponent_digits (e : Int) : String :=
  (if e < 0 then "-" else "+") ++ pad_zeros 2 (Nat.repr e.natAbs)

/-- Text of `ss << x` for a floating-point `x` on a stream in its default state
(`precision( p )`, no `floatfield` flag), i.e. `printf( "%.pg", x )`: `p`
significant digits, fixed notation when the decimal exponent `X` satisfies
`-4 <= X < p` and scientific notation otherwise, trailing zeros removed. -/
def fmt_general (p : Nat) (x : Dyadic) : String :=
  if x.mant = 0 then "0"
  else
    let P : Nat := if p = 0 then 1 else p
    let e := floor_log10 x.num x.den
    let m := round_at10 (e - ((P : Int) - 1)) x.num x.den
    let X : Int := if 10 ^ P ≤ m then e + 1 else e
    let sign := if x.negative then "-" else ""
    if -4 ≤ X ∧ X < (P : Int) then
      sign ++ strip_zeros (fixed_digits ((P : Int) - 1 - X).toNat (scaled_round ((P : Int) - 1 - X).toNat x))
    else
      sign ++ strip_zeros (fixed_digits (P - 1) (if 10 ^ P ≤ m then m / 10 else m))
        ++ "e" ++ exponent_digits X

/-- Text of a floating-point result, `g` giving the text of finite values.
The negative zero prints as a zero with a minus sign.  The NaN of an invalid
operation has its sign bit set on x86-64, and glibc prints the sign. -/
def FloatVal.fmt (g : Dyadic → String) : FloatVal → String
  | .finite x => g x
  | .negzero => "-" ++ g ⟨0, 0⟩
  | .inf s => if s then "-inf" else "inf"
  | .nan => "-nan"

/-- Text of `oss << n` for an `unsigned int`. -/
def fmt_unsigned (n : Nat) : String := Nat.repr n

/-- The characters after an optional leading minus sign. -/
def unsigned_part : List Char → List Char
  | '-' :: r => r
  | r => r

/-- Check that `s` is a number in fixed notation with exactly `k` decimals: an
optional minus sign, one or more digits, and then nothing more when `k = 0`,
or a decimal point followed by exactly `k` digits. -/
def is_fixed_text (k : Nat) (s : String) : Bool :=
  !((unsigned_part s.data).takeWhile Char.isDigit).isEmpty &&
    (if k = 0 then ((unsigned_part s.data).dropWhile Char.isDigit).isEmpty
     else ((unsigned_part s.data).dropWhile Char.isDigit).head? == some '.'
        && (((unsigned_part s.data).dropWhile Char.isDigit).tail.length == k
        && ((unsigned_part s.data).dropWhile Char.isDigit).tail.all Char.isDigit))

/-- The characters that occur in the text of a number: digits, the decimal
point, signs, the exponent mark and the letters of `inf` and `nan`. -/
def is_number_char (c : Char) : Bool :=
  c.isDigit || c == '.' || c == '-' || c == '+' || c == 'e'
    || c == 'i' || c == 'n' || c == 'f' || c == 'a'

/-- Check that every character of `s` may occur in the text of a number. -/
def number_text (s : String) : Bool := s.data.all is_number_char

/-! ## Memory segment -/

/-- Modelled from the spec: `stats.h` is not among the sources; section 3 of
the spec gives `MemoryStatus` as three numeric fields in megabytes, read here
as finite `float` values (of which zero is the positive zero). -/
structure MemoryStatus where
  used_mem : Dyadic
  total_mem : Dyadic
  free_mem : Dyadic

/-- Enumerator `MEMORY_MODE_DEFAULT`. -/
def MEMORY_MODE_DEFAULT : Int := 0

/-- Enumerator `MEMORY_MODE_FREE_MEMORY`. -/
def MEMORY_MODE_FREE_MEMORY : Int := 1

/-- Enumerator `MEMORY_MODE_USAGE_PERCENTAGE`. -/
def MEMORY_MODE_USAGE_PERCENTAGE : Int := 2

/-- Modelled from the spec: `conversions.h` is not among the sources; section
4.1 of the spec relates neighbouring units by a fixed factor, commonly 1024.
This is `convert_unit( x, GIGABYTES, MEGABYTES )` for that factor: one
division by `2 ^ 10`, which is exact on binary floating-point values. -/
def convert_unit_1024 (x : Dyadic) : Dyadic := ⟨x.mant, x.exp - 10⟩

/-- The function `mem_string` (`main.cc`, lines 79-119).  `to_gigabytes` stands
for the call `convert_unit( free_mem, GIGABYTES, MEGABYTES )`; the enumeration
value `mode` is the integer the caller passes. -/
def mem_string (to_gigabytes : Dyadic → Dyadic) (mem_status : MemoryStatus) (mode : Int) : String :=
  if mode = MEMORY_MODE_FREE_MEMORY then
    if (to_gigabytes mem_status.free_mem).lt (Dyadic.ofInt 1) then
      fmt_fixed 2 mem_status.free_mem ++ "MB"
    else
      fmt_fixed 2 (to_gigabytes mem_status.free_mem) ++ "GB"
  else if mode = MEMORY_MODE_USAGE_PERCENTAGE then
    FloatVal.fmt (fmt_fixed 2)
      (FloatVal.round binary32
        (FloatVal.mul binary64
          (FloatVal.div binary32 (.finite mem_status.used_mem) (.finite mem_status.total_mem))
          (.finite (Dyadic.ofInt 100)))) ++ "%"
  else
    fmt_unsigned (to_unsigned mem_status.used_mem) ++ "/"
      ++ fmt_unsigned (to_unsigned mem_status.total_mem) ++ "MB"

/-! ## CPU segment -/

/-- The function `cpu_string` (`main.cc`, lines 36-62).  `cpu_percentage` is the
sampler of `stats.h`.  The product `percentage * multiplier` has the factor
`1.0f`, which IEEE-754 multiplies exactly, so it is the exact product.  The
local `percent` is never read and is left out. -/
def cpu_string (cpu_percentage : Nat → Dyadic) (cpu_usage_delay : Nat) : String :=
  let percentage := cpu_percentage cpu_usage_delay
  let multiplier : Dyadic := Dyadic.ofInt 1
  let precision : Nat := if (percentage.mul multiplier).ge (Dyadic.ofInt 100) then 0 else 1
  " " ++ fmt_fixed precision (percentage.mul multiplier)

/-! ## Load segment -/

/-- Outcome of `getloadavg( averages, n )`: the return value and the contents
of the array `averages` after the call. -/
structure LoadQuery where
  ret : Int
  averages : Nat → Dyadic

/-- The expression `floorf( static_cast<float>( a ) * 100 + 0.5 ) / 100` of
`load_string`: the cast and the product are `float` operations, the sum with
the `double` literal `0.5` is a `double` operation, `floorf` takes its argument
as a `float`, and the quotient is a `float` again. -/
def rounded_average (a : Dyadic) : FloatVal :=
  FloatVal.div binary32
    (FloatVal.floor
      (FloatVal.round binary32
        (FloatVal.add binary64
          (FloatVal.mul binary32 (FloatVal.round binary32 (.finite a)) (.finite (Dyadic.ofInt 100)))
          (.finite ⟨1, -1⟩))))
    (.finite (Dyadic.ofInt 100))

/-- Text of `ss << avg` in `load_string`: the stream `ss` is left in its
default state (precision 6, no `fixed` flag). -/
def avg_text (a : Dyadic) : String := FloatVal.fmt (fmt_general 6) (rounded_average a)

/-- One iteration of the `for` loop of `load_string`. -/
def load_step (averages : Nat → Dyadic) (num_averages : Int) (ss : String) (i : Nat) : String :=
  if (i : Int) = num_averages - 1 then ss ++ avg_text (averages i)
  else ss ++ avg_text (averages i) ++ " "

/-- The function `load_string` (`main.cc`, lines 121-165).  The declaration
`double averages[num_averages]` comes first, before the range check: an array
of negative length is undefined behaviour, for which the result is `none`
(length zero is accepted by the GNU dialect, the one that has such arrays in
C++).  The local `load_percent` is computed and never read; it is left out. -/
def load_string (getloadavg : Int → LoadQuery) (num_averages : Int) : Option String :=
  if num_averages < 0 then none
  else if num_averages ≤ 0 ∨ num_averages > 3 then some (String.singleton (Char.ofNat 0))
  else if (getloadavg num_averages).ret < 0 then some " 0.00 0.00 0.00"
  else
    some ((List.range num_averages.toNat).foldl
      (load_step (getloadavg num_averages).averages num_averages) " ")

/-! ## The program -/

/-- Exit status `EXIT_SUCCESS`. -/
def EXIT_SUCCESS : Int := 0

/-- Exit status `EXIT_FAILURE`. -/
def EXIT_FAILURE : Int := 1

/-- What one run of the program leaves behind: the text it wrote to standard
output, the text `main` itself wrote to standard error, and the exit status. -/
structure Outcome where
  stdout : String
  stderr : String
  status : Int
deriving DecidableEq, Repr

/-- One result of `getopt_long`: the option character it returns and
`atoi( optarg )` for that option. -/
structure Opt where
  c : Char
  arg : Int
deriving DecidableEq, Repr

/-- The locals of `main` that the option loop updates. -/
structure Settings where
  cpu_usage_delay : Nat
  averages_count : Int
  mem_mode : Int
  version : Bool
deriving DecidableEq, Repr

/-- The collaborators of `main` outside `main.cc`. -/
structure Host where
  version_text : String
  memory : MemoryStatus
  to_gigabytes : Dyadic → Dyadic
  cpu_percentage : Nat → Dyadic
  getloadavg : Int → LoadQuery

/-- Result of an `int` operation on a 32-bit two's-complement machine.  C++
leaves signed overflow undefined; the model wraps, as the usual targets do. -/
def wrap_int (n : Int) : Int := (n + 2 ^ 31) % 2 ^ 32 - 2 ^ 31

/-- Conversion of an `int` to a 32-bit `unsigned`. -/
def int_to_unsigned (n : Int) : Nat := (n % 2 ^ 32).toNat

/-- The assignment `cpu_usage_delay = atoi( optarg ) * 1000000 - 10000`: `int`
arithmetic stored in an `unsigned`. -/
def interval_delay (n : Int) : Nat := int_to_unsigned (wrap_int (wrap_int (n * 1000000) - 10000))

/-- The text `print_help` writes, for the version string `v`. -/
def print_help (v : String) : String :=
  "tmux-host-stats v" ++ v ++ "\n"
    ++ "Usage: tmux-host-stats [OPTIONS]\n\n"
    ++ "Available options:\n"
    ++ "-h, --help\n"
    ++ "\t Prints this help message\n"
    ++ "-i <value>, --interval <value>\n"
    ++ "\tSet tmux status refresh interval in seconds. Default: 1 second\n"
    ++ "-m <value>, --mem-mode <value>\n"
    ++ "\tSet memory display mode. 0: Default, 1: Free memory, 2: Usage percent.\n"
    ++ "-t <value>, --cpu-mode <value>\n"
    ++ "\tSet cpu % display mode. 0: Default max 100%, 1: Max 100% * number of threads. \n"
    ++ "-a <value>, --averages-count <value>\n"
    ++ "\tSet how many load-averages should be drawn. Default: 3\n"
    ++ "\n"

/-- The `while` loop of `main` over the results of `getopt_long`: either the
run ends inside the loop, or the loop finishes with the settings to use. -/
def main_options (v : String) : List Opt → Settings → Except Outcome Settings
  | [], s => .ok s
  | o :: rest, s =>
    if o.c = 'h' then .error ⟨print_help v, "", EXIT_FAILURE⟩
    else if o.c = 'i' then
      if o.arg < 1 then
        .error ⟨"", "Status interval argument must be one or greater.\n", EXIT_FAILURE⟩
      else main_options v rest ⟨interval_delay o.arg, s.averages_count, s.mem_mode, s.version⟩
    else if o.c = 'm' then
      if o.arg < 0 then
        .error ⟨"", "Memory mode argument must be zero or greater.\n", EXIT_FAILURE⟩
      else main_options v rest ⟨s.cpu_usage_delay, s.averages_count, o.arg, s.version⟩
    else if o.c = 'a' then
      if o.arg < 0 ∨ o.arg > 3 then
        .error ⟨"", "Valid averages-count arguments are: 0, 1, 2, 3\n", EXIT_FAILURE⟩
      else main_options v rest ⟨s.cpu_usage_delay, o.arg, s.mem_mode, s.version⟩
    else if o.c = 'v' then main_options v rest ⟨s.cpu_usage_delay, s.averages_count, s.mem_mode, true⟩
    else if o.c = '?' then .error ⟨"", "", EXIT_FAILURE⟩
    else
      .error ⟨"", "?? getopt returned character code 0 " ++ Nat.repr o.c.toNat ++ "\n", EXIT_FAILURE⟩

/-- The initial values of the locals of `main`. -/
def initial_settings : Settings := ⟨990000, 3, MEMORY_MODE_FREE_MEMORY, false⟩

/-- The line `main` prints once the options are accepted: the three segments
and a newline; undefined when `load_string` is. -/
def stats_line (h : Host) (s : Settings) : Option String :=
  (load_string h.getloadavg s.averages_count).map (fun l =>
    mem_string h.to_gigabytes h.memory s.mem_mode
      ++ cpu_string h.cpu_percentage s.cpu_usage_delay
      ++ l ++ "\n")

/-- The function `main` (`main.cc`, lines 188-268) on the options that
`getopt_long` delivers; `none` when the run meets undefined behaviour. -/
def main (h : Host) (opts : List Opt) : Option Outcome :=
  match main_options h.version_text opts initial_settings with
  | .error out => some out
  | .ok s =>
    if s.version then some ⟨h.version_text ++ "\n", "", EXIT_SUCCESS⟩
    else (stats_line h s).map (fun line => ⟨line, "", EXIT_SUCCESS⟩)

/-- An option that the loop of `main` accepts and that is neither the help nor
the version flag: an interval of at least one second, a memory mode that is
not negative, or an averages count from 0 to 3. -/
def valid_option (o : Opt) : Bool :=
  decide ((o.c = 'i' ∧ 1 ≤ o.arg) ∨ (o.c = 'm' ∧ 0 ≤ o.arg) ∨ (o.c = 'a' ∧ 0 ≤ o.arg ∧ o.arg ≤ 3))

/-! # Lemmas -/

/-! ## Values of dyadic numbers -/

theorem Dyadic.toRat_of_exp_nonneg (x : Dyadic) (h : 0 ≤ x.exp) :
    x.toRat = ((x.mant * 2 ^ x.exp.toNat : Int) : ℚ) := by
  unfold Dyadic.toRat
  obtain ⟨k, hk⟩ := Int.eq_ofNat_of_zero_le h
  rw [hk]
  simp

theorem Dyadic.toRat_of_exp_neg (x : Dyadic) (h : x.exp < 0) :
    x.toRat = (x.mant : ℚ) / ((2 ^ (-x.exp).toNat : Nat) : ℚ) := by
  unfold Dyadic.toRat
  obtain ⟨k, hk⟩ := Int.eq_ofNat_of_zero_le (show 0 ≤ -x.exp by omega)
  have hx : x.exp = -(k : Int) := by omega
  rw [hx]
  simp [zpow_neg, div_eq_mul_inv]

theorem Dyadic.mant_nonneg_of_toRat (x : Dyadic) (h : 0 ≤ x.toRat) : 0 ≤ x.mant := by
  unfold Dyadic.toRat at h
  have h2 : (0 : ℚ) < (2 : ℚ) ^ x.exp := by positivity
  have := nonneg_of_mul_nonneg_left h h2
  exact_mod_cast this

theorem Dyadic.trunc_eq_floor (x : Dyadic) (h : 0 ≤ x.toRat) : x.trunc = ⌊x.toRat⌋ := by
  have hm := x.mant_nonneg_of_toRat h
  unfold Dyadic.trunc
  split
  · next he =>
    rw [x.toRat_of_exp_nonneg he, Int.floor_intCast]
  · next he =>
    rw [x.toRat_of_exp_neg (by omega), Rat.floor_intCast_div_natCast]
    rw [Int.tdiv_eq_ediv hm (by positivity)]
    simp

theorem to_unsigned_eq_floor (x : Dyadic) (h0 : 0 ≤ x.toRat) (h1 : x.toRat < 2 ^ 32) :
    to_unsigned x = ⌊x.toRat⌋₊ := by
  unfold to_unsigned
  rw [x.trunc_eq_floor h0, ← Int.floor_toNat]
  have hlo : 0 ≤ ⌊x.toRat⌋ := Int.floor_nonneg.2 h0
  have hhi : ⌊x.toRat⌋ < 2 ^ 32 := by
    rw [Int.floor_lt]
    exact_mod_cast h1
  rw [Int.emod_eq_of_lt hlo hhi]

/-! ## Decimal digits -/

theorem digitChar_isDigit (k : Nat) (h : k < 10) : (Nat.digitChar k).isDigit = true := by
  interval_cases k <;> decide

theorem toDigitsCore_isDigit (fuel : Nat) :
    ∀ (n : Nat) (ds : List Char), (∀ c ∈ ds, c.isDigit = true) →
      ∀ c ∈ Nat.toDigitsCore 10 fuel n ds, c.isDigit = true := by
  induction fuel with
  | zero => intro n ds h; simpa [Nat.toDigitsCore] using h
  | succ f ih =>
    intro n ds h
    have hd : (Nat.digitChar (n % 10)).isDigit = true := digitChar_isDigit _ (Nat.mod_lt _ (by decide))
    have hcons : ∀ c ∈ Nat.digitChar (n % 10) :: ds, c.isDigit = true := by
      intro c hc
      rcases List.mem_cons.1 hc with rfl | hc
      · exact hd
      · exact h c hc
    unfold Nat.toDigitsCore
    dsimp only
    split
    · exact hcons
    · exact ih _ _ hcons

theorem toDigitsCore_ne_nil (fuel : Nat) :
    ∀ (n : Nat) (ds : List Char), ds ≠ [] → Nat.toDigitsCore 10 fuel n ds ≠ [] := by
  induction fuel with
  | zero => intro n ds h; simpa [Nat.toDigitsCore] using h
  | succ f ih =>
    intro n ds _
    unfold Nat.toDigitsCore
    dsimp only
    split
    · simp
    · exact ih _ _ (by simp)

theorem repr_isDigit (n : Nat) : ∀ c ∈ (Nat.repr n).data, c.isDigit = true := by
  intro c hc
  exact toDigitsCore_isDigit (n + 1) n [] (by simp) c (by simpa [Nat.repr, Nat.toDigits] using hc)

theorem repr_ne_nil (n : Nat) : (Nat.repr n).data ≠ [] := by
  have : Nat.toDigitsCore 10 (n + 1) n [] ≠ [] := by
    unfold Nat.toDigitsCore
    dsimp only
    split
    · simp
    · exact toDigitsCore_ne_nil _ _ _ (by simp)
  simpa [Nat.repr, Nat.toDigits] using this

theorem pad_zeros_data (w : Nat) (s : String) :
    (pad_zeros w s).data = List.replicate (w - s.length) '0' ++ s.data := rfl

theorem pad_zeros_length (w : Nat) (s : String) (h : s.length ≤ w) :
    (pad_zeros w s).data.length = w := by
  rw [pad_zeros_data]
  simp only [List.length_append, List.length_replicate]
  have : s.data.length = s.length := rfl
  omega

theorem pad_zeros_isDigit (w : Nat) (s : String) (h : ∀ c ∈ s.data, c.isDigit = true) :
    ∀ c ∈ (pad_zeros w s).data, c.isDigit = true := by
  intro c hc
  rw [pad_zeros_data] at hc
  rcases List.mem_append.1 hc with hc | hc
  · rw [(List.mem_replicate.1 hc).2]; decide
  · exact h c hc

theorem fraction_length (p n : Nat) (hp : p ≠ 0) :
    (pad_zeros p (Nat.repr (n % 10 ^ p))).data.length = p :=
  pad_zeros_length p _ (Nat.repr_length _ _ (Nat.pos_of_ne_zero hp) (Nat.mod_lt _ (by positivity)))

theorem unsigned_part_digits (l : List Char) (hne : l ≠ []) (h : ∀ c ∈ l, c.isDigit = true)
    (r : List Char) : unsigned_part (l ++ r) = l ++ r := by
  cases l with
  | nil => exact absurd rfl hne
  | cons c t =>
    have hc : c.isDigit = true := h c (by simp)
    have hneq : c ≠ '-' := by
      intro he; rw [he] at hc; exact absurd hc (by decide)
    simp only [List.cons_append]
    unfold unsigned_part
    split
    · next heq => 
      injection heq with h1 _
      exact absurd h1 hneq
    · rfl

theorem is_fixed_text_digits (p n : Nat) (sign : String) (hs : sign = "-" ∨ sign = "") :
    is_fixed_text p (sign ++ fixed_digits p n) = true := by
  have hbody : unsigned_part (sign ++ fixed_digits p n).data = (fixed_digits p n).data := by
    rcases hs with rfl | rfl
    · rfl
    · simp only [String.data_append]
      unfold fixed_digits
      simp only [String.data_append]
      show unsigned_part ([] ++ _) = _
      rw [List.nil_append]
      exact unsigned_part_digits _ (repr_ne_nil _) (repr_isDigit _) _
  unfold is_fixed_text
  rw [hbody]
  unfold fixed_digits
  by_cases hp : p = 0
  · subst hp
    simp only [String.data_append, if_true]
    rw [List.append_nil]
    have hall : ∀ c ∈ (Nat.repr (n / 10 ^ 0)).data, c.isDigit = true := repr_isDigit _
    rw [List.takeWhile_eq_self_iff.2 hall, List.dropWhile_eq_nil_iff.2 hall]
    have := repr_ne_nil (n / 10 ^ 0)
    cases hd : (Nat.repr (n / 10 ^ 0)).data with
    | nil => exact absurd hd this
    | cons a t => rfl
  · simp only [String.data_append, if_neg hp]
    have hall : ∀ c ∈ (Nat.repr (n / 10 ^ p)).data, c.isDigit = true := repr_isDigit _
    rw [List.takeWhile_append_of_pos hall, List.dropWhile_append_of_pos hall]
    simp only [List.singleton_append]
    rw [List.takeWhile_cons_of_neg (by decide), List.dropWhile_cons_of_neg (by decide)]
    simp only [List.append_nil, List.head?_cons, List.tail_cons]
    have hlen := fraction_length p n hp
    have hdig := pad_zeros_isDigit p (Nat.repr (n % 10 ^ p)) (repr_isDigit _)
    have := repr_ne_nil (n / 10 ^ p)
    cases hd : (Nat.repr (n / 10 ^ p)).data with
    | nil => exact absurd hd this
    | cons a t =>
      simpa [hlen] using hdig

theorem fmt_fixed_is_fixed_text (p : Nat) (x : Dyadic) :
    is_fixed_text p (fmt_fixed p x) = true := by
  unfold fmt_fixed
  apply is_fixed_text_digits
  by_cases h : x.negative = true
  · left; simp [h]
  · right; simp [h]

/-! ## Comparisons -/

theorem Dyadic.scaled_cast (x : Dyadic) (k : Int) (h : k ≤ x.exp) :
    ((x.scaled k : Int) : ℚ) = x.toRat * (2 : ℚ) ^ (-k) := by
  unfold Dyadic.scaled Dyadic.toRat
  obtain ⟨j, hj⟩ := Int.eq_ofNat_of_zero_le (show 0 ≤ x.exp - k by omega)
  rw [hj]
  have hx : x.exp = (j : Int) + k := by omega
  rw [hx]
  push_cast
  rw [mul_assoc, ← zpow_add₀ (by norm_num : (2 : ℚ) ≠ 0)]
  simp

theorem Dyadic.lt_iff (a b : Dyadic) : a.lt b = true ↔ a.toRat < b.toRat := by
  unfold Dyadic.lt
  rw [decide_eq_true_iff]
  have ha := a.scaled_cast (min a.exp b.exp) (min_le_left _ _)
  have hb := b.scaled_cast (min a.exp b.exp) (min_le_right _ _)
  have hpos : (0 : ℚ) < (2 : ℚ) ^ (-(min a.exp b.exp)) := by positivity
  constructor
  · intro h
    have h2 : ((a.scaled (min a.exp b.exp) : Int) : ℚ) < ((b.scaled (min a.exp b.exp) : Int) : ℚ) := by
      exact_mod_cast h
    rw [ha, hb] at h2
    exact lt_of_mul_lt_mul_right h2 hpos.le
  · intro h
    have h2 : ((a.scaled (min a.exp b.exp) : Int) : ℚ) < ((b.scaled (min a.exp b.exp) : Int) : ℚ) := by
      rw [ha, hb]
      exact mul_lt_mul_of_pos_right h hpos
    exact_mod_cast h2

theorem Dyadic.ge_iff (a b : Dyadic) : a.ge b = true ↔ b.toRat ≤ a.toRat := by
  unfold Dyadic.ge
  rw [Bool.not_eq_true', ← not_lt, ← Dyadic.lt_iff]
  simp

theorem Dyadic.toRat_ofInt (n : Int) : (Dyadic.ofInt n).toRat = n := by
  simp [Dyadic.ofInt, Dyadic.toRat]

theorem Dyadic.mul_one (x : Dyadic) : x.mul (Dyadic.ofInt 1) = x := by
  cases x
  simp [Dyadic.mul, Dyadic.ofInt]

/-! ## Characters of rendered numbers -/

theorem number_text_iff (s : String) :
    number_text s = true ↔ ∀ c ∈ s.data, is_number_char c = true := by
  unfold number_text
  rw [List.all_eq_true]

theorem number_text_append {s t : String} (hs : number_text s = true) (ht : number_text t = true) :
    number_text (s ++ t) = true := by
  rw [number_text_iff] at *
  intro c hc
  rw [String.data_append] at hc
  rcases List.mem_append.1 hc with h | h
  · exact hs c h
  · exact ht c h

theorem number_text_of_isDigit {s : String} (h : ∀ c ∈ s.data, c.isDigit = true) :
    number_text s = true := by
  rw [number_text_iff]
  intro c hc
  simp [is_number_char, h c hc]

theorem number_text_repr (n : Nat) : number_text (Nat.repr n) = true :=
  number_text_of_isDigit (repr_isDigit n)

theorem number_text_sign (b : Bool) : number_text (if b = true then "-" else "") = true := by
  cases b <;> decide

theorem number_text_fixed_digits (p n : Nat) : number_text (fixed_digits p n) = true := by
  unfold fixed_digits
  apply number_text_append (number_text_repr _)
  split
  · decide
  · exact number_text_append (by decide)
      (number_text_of_isDigit (pad_zeros_isDigit _ _ (repr_isDigit _)))

theorem number_text_fmt_fixed (p : Nat) (x : Dyadic) : number_text (fmt_fixed p x) = true := by
  unfold fmt_fixed
  exact number_text_append (number_text_sign _) (number_text_fixed_digits _ _)

theorem strip_zeros_subset (s : String) : ∀ c ∈ (strip_zeros s).data, c ∈ s.data := by
  intro c hc
  unfold strip_zeros at hc
  split at hc
  · have hsub : ∀ l : List Char, ∀ c ∈ (match l with | '.' :: r => r | r => r), c ∈ l := by
      intro l c h
      split at h
      · exact List.mem_cons_of_mem _ h
      · exact h
    have h1 := hsub _ c (List.mem_reverse.1 hc)
    exact List.mem_reverse.1 ((List.dropWhile_sublist _).subset h1)
  · exact hc

theorem number_text_strip_zeros {s : String} (h : number_text s = true) :
    number_text (strip_zeros s) = true := by
  rw [number_text_iff] at *
  exact fun c hc => h c (strip_zeros_subset s c hc)

theorem number_text_exponent_digits (e : Int) : number_text (exponent_digits e) = true := by
  unfold exponent_digits
  apply number_text_append
  · split <;> decide
  · exact number_text_of_isDigit (pad_zeros_isDigit _ _ (repr_isDigit _))

theorem number_text_ite {c : Prop} [Decidable c] {s t : String} (hs : number_text s = true)
    (ht : number_text t = true) : number_text (if c then s else t) = true := by
  split <;> assumption

theorem number_text_fmt_general (p : Nat) (x : Dyadic) : number_text (fmt_general p x) = true := by
  unfold fmt_general
  refine number_text_ite (by decide) ?_
  dsimp only
  refine number_text_ite ?_ ?_
  · exact number_text_append (number_text_sign _)
      (number_text_strip_zeros (number_text_fixed_digits _ _))
  · exact number_text_append
      (number_text_append
        (number_text_append (number_text_sign _)
          (number_text_strip_zeros (number_text_fixed_digits _ _)))
        (by decide))
      (number_text_exponent_digits _)

theorem number_text_fmt (g : Dyadic → String) (hg : ∀ x, number_text (g x) = true) (v : FloatVal) :
    number_text (FloatVal.fmt g v) = true := by
  cases v with
  | finite x => exact hg x
  | negzero => exact number_text_append (by decide) (hg _)
  | inf s => cases s <;> rfl
  | nan => rfl

theorem not_mem_of_number_text {s : String} (h : number_text s = true) (c : Char)
    (hc : is_number_char c = false) : c ∉ s.data := by
  rw [number_text_iff] at h
  intro hmem
  rw [h c hmem] at hc
  exact absurd hc (by decide)

/-! ## Rendered numbers are not empty -/

theorem strip_zeros_ne_nil (s : String) (c : Char) (rest : List Char) (hs : s.data = c :: rest)
    (hc : c ≠ '.') : (strip_zeros s).data ≠ [] := by
  unfold strip_zeros
  split
  · next hdot =>
    have hmem : '.' ∈ rest := by
      have h1 : '.' ∈ s.data := by simpa using hdot
      rw [hs] at h1
      rcases List.mem_cons.1 h1 with h | h
      · exact absurd h.symm hc
      · exact h
    have hne : (rest.reverse.dropWhile (fun c => c == '0')) ≠ [] := by
      intro h
      have := List.dropWhile_eq_nil_iff.1 h '.' (List.mem_reverse.2 hmem)
      exact absurd this (by decide)
    have hD : s.data.reverse.dropWhile (fun c => c == '0')
        = rest.reverse.dropWhile (fun c => c == '0') ++ [c] := by
      rw [hs, List.reverse_cons, List.dropWhile_append]
      cases h : rest.reverse.dropWhile (fun c => c == '0') with
      | nil => exact absurd h hne
      | cons a t => simp
    rw [hD]
    cases h : rest.reverse.dropWhile (fun c => c == '0') with
    | nil => exact absurd h hne
    | cons a t =>
      simp only [List.cons_append]
      split
      · next r heq =>
        injection heq with _ h2
        rw [← h2]
        simp
      · simp
  · rw [hs]; simp

theorem fixed_digits_head (p n : Nat) :
    ∃ c rest, (fixed_digits p n).data = c :: rest ∧ c ≠ '.' := by
  unfold fixed_digits
  rw [String.data_append]
  have hne := repr_ne_nil (n / 10 ^ p)
  have hdig := repr_isDigit (n / 10 ^ p)
  cases h : (Nat.repr (n / 10 ^ p)).data with
  | nil => exact absurd h hne
  | cons a t =>
    refine ⟨a, t ++ _, rfl, ?_⟩
    intro ha
    have := hdig a (by rw [h]; simp)
    rw [ha] at this
    exact absurd this (by decide)

theorem strip_fixed_digits_ne_nil (p n : Nat) : (strip_zeros (fixed_digits p n)).data ≠ [] := by
  obtain ⟨c, rest, h, hc⟩ := fixed_digits_head p n
  exact strip_zeros_ne_nil _ c rest h hc

theorem ne_nil_ite {c : Prop} [Decidable c] {s t : String} (hs : s.data ≠ [])
    (ht : t.data ≠ []) : (if c then s else t).data ≠ [] := by
  split <;> assumption

theorem fmt_general_ne_nil (p : Nat) (x : Dyadic) : (fmt_general p x).data ≠ [] := by
  unfold fmt_general
  refine ne_nil_ite (by decide) ?_
  dsimp only
  refine ne_nil_ite ?_ ?_
  · rw [String.data_append]
    intro h
    exact strip_fixed_digits_ne_nil _ _ (List.append_eq_nil.1 h).2
  · simp only [String.data_append]
    intro h
    have h1 := (List.append_eq_nil.1 h).1
    have h2 := (List.append_eq_nil.1 h1).2
    exact absurd h2 (by decide)

theorem fmt_ne_nil (g : Dyadic → String) (hg : ∀ x, (g x).data ≠ []) (v : FloatVal) :
    (FloatVal.fmt g v).data ≠ [] := by
  cases v with
  | finite x => exact hg x
  | inf s =>
    cases s
    · show ("inf" : String).data ≠ []
      decide
    · show ("-inf" : String).data ≠ []
      decide
  | negzero =>
    show ("-" ++ g ⟨0, 0⟩).data ≠ []
    rw [String.data_append]
    intro h
    exact absurd (List.append_eq_nil.1 h).1 (by decide)
  | nan =>
    show ("-nan" : String).data ≠ []
    decide

theorem avg_text_ne_nil (a : Dyadic) : (avg_text a).data ≠ [] :=
  fmt_ne_nil _ (fmt_general_ne_nil 6) _

theorem avg_text_number_text (a : Dyadic) : number_text (avg_text a) = true :=
  number_text_fmt _ (number_text_fmt_general 6) _

/-! ## Correct rounding of the fixed notation -/

theorem round_half_even_bounds (n d : Nat) (hd : 0 < d) :
    2 * (round_half_even n d * d) ≤ 2 * n + d ∧ 2 * n ≤ 2 * (round_half_even n d * d) + d := by
  have hdm := Nat.div_add_mod n d
  have hr := Nat.mod_lt n hd
  have h1 : (n / d + 1) * d = d * (n / d) + d := by ring
  have h2 : n / d * d = d * (n / d) := by ring
  unfold round_half_even
  split
  · rw [h2]; omega
  · split
    · rw [h1]; omega
    · split
      · rw [h2]; omega
      · rw [h1]; omega

theorem round_half_even_near (n d : Nat) (hd : 0 < d) :
    |(round_half_even n d : ℚ) - (n : ℚ) / (d : ℚ)| ≤ 1 / 2 := by
  obtain ⟨h1, h2⟩ := round_half_even_bounds n d hd
  have hq : (0 : ℚ) < (d : ℚ) := by exact_mod_cast hd
  have h1q : 2 * ((round_half_even n d : ℚ) * d) ≤ 2 * n + d := by exact_mod_cast h1
  have h2q : 2 * (n : ℚ) ≤ 2 * ((round_half_even n d : ℚ) * d) + d := by exact_mod_cast h2
  rw [abs_le]
  constructor
  · rw [le_sub_iff_add_le, ← sub_eq_neg_add, sub_le_iff_le_add, div_le_iff₀ hq]
    linarith
  · rw [sub_le_iff_le_add, ← sub_le_iff_le_add', le_div_iff₀ hq]
    linarith

theorem Dyadic.abs_toRat (x : Dyadic) : |x.toRat| = (x.num : ℚ) / (x.den : ℚ) := by
  unfold Dyadic.toRat Dyadic.num Dyadic.den
  rw [abs_mul, abs_of_pos (show (0 : ℚ) < (2 : ℚ) ^ x.exp by positivity)]
  have habs : |(x.mant : ℚ)| = ((x.mant.natAbs : Nat) : ℚ) := by
    rw [Nat.cast_natAbs, Int.cast_abs]
  rw [habs]
  rcases le_or_lt 0 x.exp with h | h
  · obtain ⟨k, hk⟩ := Int.eq_ofNat_of_zero_le h
    rw [hk]
    simp
  · obtain ⟨k, hk⟩ := Int.eq_ofNat_of_zero_le (show 0 ≤ -x.exp by omega)
    have hx : x.exp = -(k : Int) := by omega
    rw [hx]
    simp [zpow_neg, div_eq_mul_inv]

theorem Dyadic.den_pos (x : Dyadic) : 0 < x.den := by
  unfold Dyadic.den
  positivity

theorem scaled_round_near (p : Nat) (x : Dyadic) :
    |(scaled_round p x : ℚ) - |x.toRat| * 10 ^ p| ≤ 1 / 2 := by
  have h := round_half_even_near (x.num * 10 ^ p) x.den x.den_pos
  rw [x.abs_toRat]
  unfold scaled_round
  have e : ((x.num * 10 ^ p : Nat) : ℚ) / (x.den : ℚ) = (x.num : ℚ) / (x.den : ℚ) * 10 ^ p := by
    push_cast
    ring
  rw [e] at h
  exact h

theorem Dyadic.negative_iff (x : Dyadic) : x.negative = true ↔ x.toRat < 0 := by
  unfold Dyadic.negative Dyadic.toRat
  rw [decide_eq_true_iff]
  have h2 : (0 : ℚ) < (2 : ℚ) ^ x.exp := by positivity
  constructor
  · intro h
    exact mul_neg_of_neg_of_pos (by exact_mod_cast h) h2
  · intro h
    by_contra hn
    have h3 : (0 : ℚ) ≤ (x.mant : ℚ) := by exact_mod_cast not_lt.1 hn
    exact absurd h (not_lt.2 (mul_nonneg h3 h2.le))

theorem fmt_fixed_nearest (p : Nat) (x : Dyadic) :
    ∃ n : Nat, |(n : ℚ) - |x.toRat| * 10 ^ p| ≤ 1 / 2
      ∧ fmt_fixed p x = (if x.toRat < 0 then "-" else "") ++ fixed_digits p n := by
  refine ⟨scaled_round p x, scaled_round_near p x, ?_⟩
  unfold fmt_fixed
  by_cases h : x.toRat < 0
  · rw [if_pos h, if_pos ((Dyadic.negative_iff x).2 h)]
  · rw [if_neg h, if_neg (fun hn => h ((Dyadic.negative_iff x).1 hn))]

/-! ## The loop of `load_string` -/

theorem load_loop_eq (av : Nat → Dyadic) (n : Int) (h1 : 1 ≤ n) (h3 : n ≤ 3) :
    (List.range n.toNat).foldl (load_step av n) " "
      = " " ++ " ".intercalate ((List.range n.toNat).map (fun i => avg_text (av i))) := by
  have hn : n = 1 ∨ n = 2 ∨ n = 3 := by omega
  rcases hn with rfl | rfl | rfl
  · simp [List.range_succ, load_step, String.intercalate, String.intercalate.go]
  · simp [List.range_succ, load_step, String.intercalate, String.intercalate.go, String.append_assoc]
  · simp [List.range_succ, load_step, String.intercalate, String.intercalate.go, String.append_assoc]

/-! ## Line structure of the output -/

theorem no_newline_append {s t : String} (hs : '\n' ∉ s.data) (ht : '\n' ∉ t.data) :
    '\n' ∉ (s ++ t).data := by
  rw [String.data_append]
  intro h
  rcases List.mem_append.1 h with h | h
  · exact hs h
  · exact ht h

theorem no_newline_of_number_text {s : String} (h : number_text s = true) : '\n' ∉ s.data :=
  not_mem_of_number_text h '\n' (by decide)

theorem no_newline_ite {c : Prop} [Decidable c] {s t : String} (hs : '\n' ∉ s.data)
    (ht : '\n' ∉ t.data) : '\n' ∉ (if c then s else t).data := by
  split <;> assumption

theorem mem_string_no_newline (conv : Dyadic → Dyadic) (m : MemoryStatus) (mode : Int) :
    '\n' ∉ (mem_string conv m mode).data := by
  unfold mem_string
  refine no_newline_ite (no_newline_ite ?_ ?_) (no_newline_ite ?_ ?_)
  · exact no_newline_append (no_newline_of_number_text (number_text_fmt_fixed _ _)) (by decide)
  · exact no_newline_append (no_newline_of_number_text (number_text_fmt_fixed _ _)) (by decide)
  · exact no_newline_append
      (no_newline_of_number_text (number_text_fmt _ (number_text_fmt_fixed 2) _)) (by decide)
  · exact no_newline_append
      (no_newline_append
        (no_newline_append (no_newline_of_number_text (number_text_repr _)) (by decide))
        (no_newline_of_number_text (number_text_repr _)))
      (by decide)

theorem cpu_string_no_newline (f : Nat → Dyadic) (delay : Nat) :
    '\n' ∉ (cpu_string f delay).data := by
  unfold cpu_string
  exact no_newline_append (by decide) (no_newline_of_number_text (number_text_fmt_fixed _ _))

theorem load_loop_no_newline (av : Nat → Dyadic) (n : Int) (l : List Nat) :
    ∀ ss : String, '\n' ∉ ss.data → '\n' ∉ (l.foldl (load_step av n) ss).data := by
  induction l with
  | nil => intro ss h; exact h
  | cons i t ih =>
    intro ss h
    rw [List.foldl_cons]
    apply ih
    unfold load_step
    have ha := no_newline_of_number_text (avg_text_number_text (av i))
    exact no_newline_ite (no_newline_append h ha)
      (no_newline_append (no_newline_append h ha) (by decide))

theorem load_string_no_newline (g : Int → LoadQuery) (n : Int) (l : String)
    (hl : load_string g n = some l) : '\n' ∉ l.data := by
  unfold load_string at hl
  split at hl
  · exact absurd hl (by simp)
  · split at hl
    · rw [← Option.some.inj hl]
      decide
    · split at hl
      · rw [← Option.some.inj hl]
        decide
      · rw [← Option.some.inj hl]
        exact load_loop_no_newline _ _ _ _ (by decide)

theorem load_string_defined (g : Int → LoadQuery) (n : Int) (hn : 0 ≤ n) :
    ∃ l, load_string g n = some l := by
  unfold load_string
  rw [if_neg (by omega)]
  split
  · exact ⟨_, rfl⟩
  · split
    · exact ⟨_, rfl⟩
    · exact ⟨_, rfl⟩

theorem line_one_newline (a b l : String) (ha : '\n' ∉ a.data) (hb : '\n' ∉ b.data)
    (hl : '\n' ∉ l.data) : (a ++ b ++ l ++ "\n").data.count '\n' = 1 := by
  have hbody := no_newline_append (no_newline_append ha hb) hl
  rw [String.data_append, List.count_append, List.count_eq_zero_of_not_mem hbody]
  rfl

theorem main_options_valid (v : String) (opts : List Opt) :
    ∀ s0 : Settings, s0.version = false → 0 ≤ s0.averages_count →
      (∀ o ∈ opts, valid_option o = true) →
      ∃ s, main_options v opts s0 = .ok s ∧ s.version = false ∧ 0 ≤ s.averages_count := by
  induction opts with
  | nil => intro s0 h0 ha _; exact ⟨s0, rfl, h0, ha⟩
  | cons o t ih =>
    intro s0 h0 hcount hv
    have ho : valid_option o = true := hv o (by simp)
    have ht : ∀ o ∈ t, valid_option o = true := fun o' h' => hv o' (by simp [h'])
    unfold valid_option at ho
    rw [decide_eq_true_iff] at ho
    rcases ho with ⟨hc, ha⟩ | ⟨hc, ha⟩ | ⟨hc, ha1, ha2⟩
    · obtain ⟨s, hs, hver, hcnt⟩ :=
        ih ⟨interval_delay o.arg, s0.averages_count, s0.mem_mode, s0.version⟩ h0 hcount ht
      refine ⟨s, ?_, hver, hcnt⟩
      rw [← hs]
      simp [main_options, hc]
      omega
    · obtain ⟨s, hs, hver, hcnt⟩ :=
        ih ⟨s0.cpu_usage_delay, s0.averages_count, o.arg, s0.version⟩ h0 hcount ht
      refine ⟨s, ?_, hver, hcnt⟩
      rw [← hs]
      simp [main_options, hc]
      omega
    · obtain ⟨s, hs, hver, hcnt⟩ :=
        ih ⟨s0.cpu_usage_delay, o.arg, s0.mem_mode, s0.version⟩ h0 ha1 ht
      refine ⟨s, ?_, hver, hcnt⟩
      rw [← hs]
      simp [main_options, hc]
      omega

theorem main_of_settings (h : Host) (opts : List Opt) (s : Settings) (l : String)
    (hs : main_options h.version_text opts initial_settings = .ok s) (hver : s.version = false)
    (hl : load_string h.getloadavg s.averages_count = some l) :
    main h opts
      = some ⟨mem_string h.to_gigabytes h.memory s.mem_mode
          ++ cpu_string h.cpu_percentage s.cpu_usage_delay ++ l ++ "\n", "", EXIT_SUCCESS⟩ := by
  unfold main
  rw [hs]
  simp [hver, stats_line, hl]

/-! ## The option loop -/

theorem main_options_rejects_t (v : String) (x : Int) (post : List Opt)
    (pre : List Opt) :
    ∀ s0 : Settings, (∀ o ∈ pre, valid_option o = true) →
      main_options v (pre ++ ⟨'t', x⟩ :: post) s0
        = .error ⟨"", "?? getopt returned character code 0 116\n", EXIT_FAILURE⟩ := by
  induction pre with
  | nil =>
    intro s0 _
    simp [main_options]
    decide
  | cons o t ih =>
    intro s0 hv
    have ho : valid_option o = true := hv o (by simp)
    have ht : ∀ o ∈ t, valid_option o = true := fun o' h' => hv o' (by simp [h'])
    unfold valid_option at ho
    rw [decide_eq_true_iff] at ho
    rcases ho with ⟨hc, ha⟩ | ⟨hc, ha⟩ | ⟨hc, ha1, ha2⟩
    · rw [← ih ⟨interval_delay o.arg, s0.averages_count, s0.mem_mode, s0.version⟩ ht]
      simp [main_options, hc]
      omega
    · rw [← ih ⟨s0.cpu_usage_delay, s0.averages_count, o.arg, s0.version⟩ ht]
      simp [main_options, hc]
      omega
    · rw [← ih ⟨s0.cpu_usage_delay, o.arg, s0.mem_mode, s0.version⟩ ht]
      simp [main_options, hc]
      omega

/-! # The claims -/

/-- C1: for a memory status with `total_mem >= used_mem >= 0` below `2 ^ 32`,
and every mode other than FreeMemory (1) and UsagePercentage (2), `mem_string`
is the decimal digits of `floor (used_mem)`, a slash, the decimal digits of
`floor (total_mem)` and `MB`, nothing else. -/
theorem mem_string_default_floor (conv : Dyadic → Dyadic) (m : MemoryStatus) (mode : Int)
    (hfree : mode ≠ MEMORY_MODE_FREE_MEMORY) (hpct : mode ≠ MEMORY_MODE_USAGE_PERCENTAGE)
    (h0 : 0 ≤ m.used_mem.toRat) (hle : m.used_mem.toRat ≤ m.total_mem.toRat)
    (hmax : m.total_mem.toRat < 2 ^ 32) :
    mem_string conv m mode
      = Nat.repr ⌊m.used_mem.toRat⌋₊ ++ "/" ++ Nat.repr ⌊m.total_mem.toRat⌋₊ ++ "MB" := by
  unfold mem_string
  rw [if_neg hfree, if_neg hpct]
  rw [to_unsigned_eq_floor _ h0 (lt_of_le_of_lt hle hmax),
    to_unsigned_eq_floor _ (le_trans h0 hle) hmax]
  rfl

/-- Witness for C1: the `float` values nearest to 11156.7 and 16003.2 in
Default mode (0) give `11156/16003MB`. -/
theorem mem_string_default_floor_witness :
    mem_string convert_unit_1024 ⟨⟨11424461, -10⟩, ⟨16387277, -10⟩, ⟨1, 0⟩⟩ 0
        = Nat.repr ⌊(Dyadic.toRat ⟨11424461, -10⟩)⌋₊ ++ "/"
            ++ Nat.repr ⌊(Dyadic.toRat ⟨16387277, -10⟩)⌋₊ ++ "MB"
      ∧ mem_string convert_unit_1024 ⟨⟨11424461, -10⟩, ⟨16387277, -10⟩, ⟨1, 0⟩⟩ 0
        = "11156/16003MB" :=
  ⟨mem_string_default_floor convert_unit_1024 ⟨⟨11424461, -10⟩, ⟨16387277, -10⟩, ⟨1, 0⟩⟩ 0
      (by decide) (by decide) (by norm_num [Dyadic.toRat]) (by norm_num [Dyadic.toRat])
      (by norm_num [Dyadic.toRat]),
    by decide⟩

/-- C2: in FreeMemory mode `mem_string` compares the gigabyte value strictly
with 1.0: below it the text is `free_mem` with exactly two decimals and `MB`,
otherwise (1.0 included) the gigabyte value with exactly two decimals and
`GB`.  A value printed with two decimals is its sign, then the digits of the
nearest number of hundredths `n`: integer part, point, two digits.  With the
factor 1024, 512.0 MB gives `512.00MB`, 2048.0 MB gives `2.00GB` and
1024.0 MB, which is exactly 1.0 GB, gives `1.00GB`. -/
theorem mem_string_free_memory (conv : Dyadic → Dyadic) (m : MemoryStatus) :
    mem_string conv m MEMORY_MODE_FREE_MEMORY
        = (if (conv m.free_mem).toRat < 1 then fmt_fixed 2 m.free_mem ++ "MB"
           else fmt_fixed 2 (conv m.free_mem) ++ "GB")
      ∧ (∀ x : Dyadic, is_fixed_text 2 (fmt_fixed 2 x) = true
          ∧ ∃ n : Nat, |(n : ℚ) - |x.toRat| * 10 ^ 2| ≤ 1 / 2
              ∧ fmt_fixed 2 x = (if x.toRat < 0 then "-" else "") ++ fixed_digits 2 n)
      ∧ mem_string convert_unit_1024 ⟨⟨0, 0⟩, ⟨0, 0⟩, ⟨512, 0⟩⟩ MEMORY_MODE_FREE_MEMORY
          = "512.00MB"
      ∧ mem_string convert_unit_1024 ⟨⟨0, 0⟩, ⟨0, 0⟩, ⟨2048, 0⟩⟩ MEMORY_MODE_FREE_MEMORY
          = "2.00GB"
      ∧ mem_string convert_unit_1024 ⟨⟨0, 0⟩, ⟨0, 0⟩, ⟨1024, 0⟩⟩ MEMORY_MODE_FREE_MEMORY
          = "1.00GB" := by
  refine ⟨?_, fun x => ⟨fmt_fixed_is_fixed_text 2 x, fmt_fixed_nearest 2 x⟩, ?_, ?_, ?_⟩
  · unfold mem_string
    rw [if_pos rfl]
    by_cases h : (conv m.free_mem).toRat < 1
    · have hlt : (conv m.free_mem).lt (Dyadic.ofInt 1) = true := by
        rw [Dyadic.lt_iff, Dyadic.toRat_ofInt]
        exact_mod_cast h
      rw [if_pos hlt, if_pos h]
    · have hlt : ¬ ((conv m.free_mem).lt (Dyadic.ofInt 1) = true) := by
        rw [Dyadic.lt_iff, Dyadic.toRat_ofInt]
        exact_mod_cast h
      rw [if_neg hlt, if_neg h]
  · decide
  · decide
  · decide

/-- C3: `cpu_string` is one space followed by the sampled percentage `p` in
fixed notation, with exactly one decimal when `p < 100` and with no decimals
and no decimal point when `p >= 100`.  Fixed notation with `k` decimals is the
sign, then the digits of the nearest number `n` of units of `10 ^ (-k)`:
integer part and, for `k > 0`, a point and exactly `k` digits.  The `float`
nearest to 45.678 gives ` 45.7` and the `float` nearest to 123.4 gives
` 123`. -/
theorem cpu_string_fixed (cpu_percentage : Nat → Dyadic) (delay : Nat) :
    cpu_string cpu_percentage delay
        = " " ++ fmt_fixed (if (cpu_percentage delay).toRat < 100 then 1 else 0)
            (cpu_percentage delay)
      ∧ (∀ (k : Nat) (x : Dyadic), is_fixed_text k (fmt_fixed k x) = true
          ∧ ∃ n : Nat, |(n : ℚ) - |x.toRat| * 10 ^ k| ≤ 1 / 2
              ∧ fmt_fixed k x = (if x.toRat < 0 then "-" else "") ++ fixed_digits k n)
      ∧ cpu_string (fun _ => ⟨5987107, -17⟩) 990000 = " 45.7"
      ∧ cpu_string (fun _ => ⟨16174285, -17⟩) 990000 = " 123" := by
  refine ⟨?_, fun k x => ⟨fmt_fixed_is_fixed_text k x, fmt_fixed_nearest k x⟩, by decide,
    by decide⟩
  unfold cpu_string
  simp only [Dyadic.mul_one]
  by_cases h : (cpu_percentage delay).toRat < 100
  · have hge : ¬ ((cpu_percentage delay).ge (Dyadic.ofInt 100) = true) := by
      rw [Dyadic.ge_iff, Dyadic.toRat_ofInt, not_le]
      exact_mod_cast h
    rw [if_neg hge, if_pos h]
  · have hge : (cpu_percentage delay).ge (Dyadic.ofInt 100) = true := by
      rw [Dyadic.ge_iff, Dyadic.toRat_ofInt]
      exact_mod_cast not_lt.1 h
    rw [if_pos hge, if_neg h]

/-- C4 (what the code does): `load_string` writes each average to a stream left
in its default state, so trailing zeros are dropped.  For one requested
average, raw 0 gives ` 0` and raw 1.2 gives ` 1.2`, where the claim expects
`0.00` and `1.20`; raw 1.2349 gives ` 1.23` and raw 1.235 gives ` 1.24`. -/
theorem load_string_default_stream :
    load_string (fun _ => ⟨1, fun _ => ⟨0, 0⟩⟩) 1 = some " 0"
      ∧ load_string (fun _ => ⟨1, fun _ => ⟨5404319552844595, -52⟩⟩) 1 = some " 1.2"
      ∧ load_string (fun _ => ⟨1, fun _ => ⟨2780747589919913, -51⟩⟩) 1 = some " 1.23"
      ∧ load_string (fun _ => ⟨1, fun _ => ⟨5561945539802563, -52⟩⟩) 1 = some " 1.24" := by
  refine ⟨by decide, ?_, ?_, ?_⟩ <;> decide

/-- C6: for a requested count in 1..3, when `getloadavg` returns a negative
result `load_string` is exactly ` 0.00 0.00 0.00`. -/
theorem load_string_query_failed (g : Int → LoadQuery) (n : Int) (h1 : 1 ≤ n) (h3 : n ≤ 3)
    (hf : (g n).ret < 0) : load_string g n = some " 0.00 0.00 0.00" := by
  unfold load_string
  rw [if_neg (by omega), if_neg (by omega), if_pos hf]

/-- Witness for C6: one average requested, the query returns -1. -/
theorem load_string_query_failed_witness :
    load_string (fun _ => ⟨-1, fun _ => ⟨0, 0⟩⟩) 1 = some " 0.00 0.00 0.00" :=
  load_string_query_failed (fun _ => ⟨-1, fun _ => ⟨0, 0⟩⟩) 1 (by decide) (by decide) (by decide)

/-- C7: for a requested count `n` in 1..3 and a successful query, `load_string`
is one space followed by the texts of the first `n` averages, in order,
joined by single spaces, with nothing after the last.  The text of an
average `a` is `floorf( a * 100 + 0.5 ) / 100` as the default stream prints
it; it is never empty and holds no space, and for the whole numbers 0..39 it
is their decimal digits.  With the averages 1.2349, 1.235, 0.5 the counts 3,
2 and 1 give ` 1.23 1.24 0.5`, ` 1.23 1.24` and ` 1.23`; with the same
averages in the order 0.5, 1.235, 1.2349 the count 3 gives
` 0.5 1.24 1.23`. -/
theorem load_string_values (g : Int → LoadQuery) (n : Int) (h1 : 1 ≤ n) (h3 : n ≤ 3)
    (hok : 0 ≤ (g n).ret) :
    load_string g n
        = some (" " ++ " ".intercalate ((List.range n.toNat).map
            (fun i => FloatVal.fmt (fmt_general 6) (rounded_average ((g n).averages i)))))
      ∧ ((List.range n.toNat).map
            (fun i => FloatVal.fmt (fmt_general 6) (rounded_average ((g n).averages i)))).length
          = n.toNat
      ∧ (∀ a : Dyadic, (FloatVal.fmt (fmt_general 6) (rounded_average a)).data ≠ []
          ∧ ' ' ∉ (FloatVal.fmt (fmt_general 6) (rounded_average a)).data)
      ∧ (∀ k : Nat, k < 40 →
          FloatVal.fmt (fmt_general 6) (rounded_average ⟨(k : Int), 0⟩) = Nat.repr k)
      ∧ load_string (fun _ => ⟨3, fun i => if i = 0 then ⟨2780747589919913, -51⟩
            else if i = 1 then ⟨5561945539802563, -52⟩ else ⟨1, -1⟩⟩) 3 = some " 1.23 1.24 0.5"
      ∧ load_string (fun _ => ⟨2, fun i => if i = 0 then ⟨2780747589919913, -51⟩
            else if i = 1 then ⟨5561945539802563, -52⟩ else ⟨1, -1⟩⟩) 2 = some " 1.23 1.24"
      ∧ load_string (fun _ => ⟨1, fun i => if i = 0 then ⟨2780747589919913, -51⟩
            else if i = 1 then ⟨5561945539802563, -52⟩ else ⟨1, -1⟩⟩) 1 = some " 1.23"
      ∧ load_string (fun _ => ⟨3, fun i => if i = 0 then ⟨1, -1⟩
            else if i = 1 then ⟨5561945539802563, -52⟩ else ⟨2780747589919913, -51⟩⟩) 3
          = some " 0.5 1.24 1.23" := by
  refine ⟨?_, by simp, fun a => ⟨avg_text_ne_nil a, ?_⟩, by decide, by decide, by decide,
    by decide, by decide⟩
  · unfold load_string
    rw [if_neg (by omega), if_neg (by omega), if_neg (by omega)]
    exact congrArg some (load_loop_eq _ n h1 h3)
  · exact not_mem_of_number_text (avg_text_number_text a) ' ' (by decide)

/-- Witness for C7: three averages requested, the query returns 1.2349, 1.235
and 0.5; the text is ` 1.23 1.24 0.5`. -/
theorem load_string_values_witness :
    load_string (fun _ => ⟨3, fun i => if i = 0 then ⟨2780747589919913, -51⟩
        else if i = 1 then ⟨5561945539802563, -52⟩ else ⟨1, -1⟩⟩) 3
      = some (" " ++ " ".intercalate ((List.range (3 : Int).toNat).map
          (fun i => FloatVal.fmt (fmt_general 6) (rounded_average
            (if i = 0 then ⟨2780747589919913, -51⟩
              else if i = 1 then ⟨5561945539802563, -52⟩ else ⟨1, -1⟩)))))
      ∧ " " ++ " ".intercalate ((List.range (3 : Int).toNat).map
          (fun i => FloatVal.fmt (fmt_general 6) (rounded_average
            (if i = 0 then ⟨2780747589919913, -51⟩
              else if i = 1 then ⟨5561945539802563, -52⟩ else ⟨1, -1⟩))))
        = " 1.23 1.24 0.5" :=
  ⟨(load_string_values (fun _ => ⟨3, fun i => if i = 0 then ⟨2780747589919913, -51⟩
        else if i = 1 then ⟨5561945539802563, -52⟩ else ⟨1, -1⟩⟩) 3 (by decide) (by decide)
      (by decide)).1,
    by decide⟩

/-- C9 (what the code does): the option loop has no case for `t`, so after
any accepted options an added `-t v` or `--cpu-mode v` ends the run with
`EXIT_FAILURE`, an error message and no output line, while the run without it
prints the stats line and returns `EXIT_SUCCESS`. -/
theorem cpu_mode_rejected (h : Host) (v : Int) (pre post : List Opt)
    (hv : ∀ o ∈ pre, valid_option o = true) :
    main h (pre ++ ⟨'t', v⟩ :: post)
        = some ⟨"", "?? getopt returned character code 0 116\n", EXIT_FAILURE⟩
      ∧ (∃ out, main h pre = some out ∧ out.status = EXIT_SUCCESS ∧ out.stdout ≠ "")
      ∧ main h [⟨'t', v⟩] ≠ main h [] := by
  have hrej : ∀ p : List Opt, (∀ o ∈ p, valid_option o = true) →
      main h (p ++ ⟨'t', v⟩ :: post)
        = some ⟨"", "?? getopt returned character code 0 116\n", EXIT_FAILURE⟩ := by
    intro p hp
    unfold main
    rw [main_options_rejects_t h.version_text v post p initial_settings hp]
  have hrun : ∀ p : List Opt, (∀ o ∈ p, valid_option o = true) →
      ∃ out, main h p = some out ∧ out.status = EXIT_SUCCESS ∧ out.stdout ≠ "" := by
    intro p hp
    obtain ⟨s, hs, hver, hcnt⟩ :=
      main_options_valid h.version_text p initial_settings rfl (by decide) hp
    obtain ⟨l, hl⟩ := load_string_defined h.getloadavg s.averages_count hcnt
    refine ⟨_, main_of_settings h p s l hs hver hl, rfl, ?_⟩
    intro hempty
    have hcount := line_one_newline _ _ l
      (mem_string_no_newline h.to_gigabytes h.memory s.mem_mode)
      (cpu_string_no_newline h.cpu_percentage s.cpu_usage_delay)
      (load_string_no_newline _ _ l hl)
    have hempty2 : mem_string h.to_gigabytes h.memory s.mem_mode
        ++ cpu_string h.cpu_percentage s.cpu_usage_delay ++ l ++ "\n" = "" := hempty
    rw [hempty2] at hcount
    exact absurd hcount (by decide)
  refine ⟨hrej pre hv, hrun pre hv, ?_⟩
  obtain ⟨out, ho, hst, _⟩ := hrun [] (by simp)
  have h3 : main h [⟨'t', v⟩]
      = some ⟨"", "?? getopt returned character code 0 116\n", EXIT_FAILURE⟩ := by
    have h4 := main_options_rejects_t h.version_text v [] [] initial_settings (by simp)
    rw [List.nil_append] at h4
    unfold main
    rw [h4]
  intro heq
  rw [h3, ho] at heq
  have h5 := congrArg Outcome.status (Option.some.inj heq)
  rw [hst] at h5
  simp [EXIT_FAILURE, EXIT_SUCCESS] at h5

/-- Witness for C9: `-t 0` as the only option. -/
theorem cpu_mode_rejected_witness :
    main ⟨"1", ⟨⟨0, 0⟩, ⟨0, 0⟩, ⟨0, 0⟩⟩, convert_unit_1024, fun _ => ⟨0, 0⟩,
        fun _ => ⟨-1, fun _ => ⟨0, 0⟩⟩⟩ ([] ++ ⟨'t', 0⟩ :: [])
      = some ⟨"", "?? getopt returned character code 0 116\n", EXIT_FAILURE⟩ :=
  (cpu_mode_rejected ⟨"1", ⟨⟨0, 0⟩, ⟨0, 0⟩, ⟨0, 0⟩⟩, convert_unit_1024, fun _ => ⟨0, 0⟩,
    fun _ => ⟨-1, fun _ => ⟨0, 0⟩⟩⟩ 0 [] [] (by simp)).1

/-- C10: for an argument list of accepted options without help or version
flag, the program writes to standard output exactly `mem_string` of the
memory status and mode, then `cpu_string` of the delay, then `load_string` of
the averages count, then a newline, the only newline of the output; it writes
nothing to standard error and returns `EXIT_SUCCESS`. -/
theorem main_prints_one_line (h : Host) (opts : List Opt)
    (hv : ∀ o ∈ opts, valid_option o = true) :
    ∃ (s : Settings) (l : String),
      main_options h.version_text opts initial_settings = .ok s
      ∧ load_string h.getloadavg s.averages_count = some l
      ∧ main h opts =
          some ⟨mem_string h.to_gigabytes h.memory s.mem_mode
              ++ cpu_string h.cpu_percentage s.cpu_usage_delay
              ++ l ++ "\n", "", EXIT_SUCCESS⟩
      ∧ (mem_string h.to_gigabytes h.memory s.mem_mode
              ++ cpu_string h.cpu_percentage s.cpu_usage_delay
              ++ l ++ "\n").data.count '\n' = 1 := by
  obtain ⟨s, hs, hver, hcnt⟩ :=
    main_options_valid h.version_text opts initial_settings rfl (by decide) hv
  obtain ⟨l, hl⟩ := load_string_defined h.getloadavg s.averages_count hcnt
  exact ⟨s, l, hs, hl, main_of_settings h opts s l hs hver hl,
    line_one_newline _ _ l (mem_string_no_newline _ _ _) (cpu_string_no_newline _ _)
      (load_string_no_newline _ _ l hl)⟩

/-- Witness for C10: interval 2, Default memory mode and two averages on a
host whose load query fails give the line `0/0MB 0.0 0.00 0.00 0.00`. -/
theorem main_prints_one_line_witness :
    (∃ (s : Settings) (l : String),
      main_options "1" [⟨'i', 2⟩, ⟨'m', 0⟩, ⟨'a', 2⟩] initial_settings = .ok s
        ∧ load_string (fun _ => ⟨-1, fun _ => ⟨0, 0⟩⟩) s.averages_count = some l
        ∧ main ⟨"1", ⟨⟨0, 0⟩, ⟨0, 0⟩, ⟨0, 0⟩⟩, convert_unit_1024, fun _ => ⟨0, 0⟩,
              fun _ => ⟨-1, fun _ => ⟨0, 0⟩⟩⟩ [⟨'i', 2⟩, ⟨'m', 0⟩, ⟨'a', 2⟩]
            = some ⟨mem_string convert_unit_1024 ⟨⟨0, 0⟩, ⟨0, 0⟩, ⟨0, 0⟩⟩ s.mem_mode
                ++ cpu_string (fun _ => ⟨0, 0⟩) s.cpu_usage_delay
                ++ l ++ "\n", "", EXIT_SUCCESS⟩
        ∧ (mem_string convert_unit_1024 ⟨⟨0, 0⟩, ⟨0, 0⟩, ⟨0, 0⟩⟩ s.mem_mode
                ++ cpu_string (fun _ => ⟨0, 0⟩) s.cpu_usage_delay
                ++ l ++ "\n").data.count '\n' = 1)
      ∧ main ⟨"1", ⟨⟨0, 0⟩, ⟨0, 0⟩, ⟨0, 0⟩⟩, convert_unit_1024, fun _ => ⟨0, 0⟩,
              fun _ => ⟨-1, fun _ => ⟨0, 0⟩⟩⟩ [⟨'i', 2⟩, ⟨'m', 0⟩, ⟨'a', 2⟩]
          = some ⟨"0/0MB 0.0 0.00 0.00 0.00\n", "", EXIT_SUCCESS⟩ :=
  ⟨main_prints_one_line ⟨"1", ⟨⟨0, 0⟩, ⟨0, 0⟩, ⟨0, 0⟩⟩, convert_unit_1024, fun _ => ⟨0, 0⟩,
      fun _ => ⟨-1, fun _ => ⟨0, 0⟩⟩⟩ [⟨'i', 2⟩, ⟨'m', 0⟩, ⟨'a', 2⟩] (by decide),
    by decide⟩

end TmuxMemCpuLoad
